import Mathlib

/-!
Shallow embedding of `osmium::relations::RelationsDatabase` and
`osmium::relations::RelationHandle`
(src/contrib/libosmium/osmium/relations/relations_database.hpp).

The database owns a growable vector of slots (`element`), each pairing a
backing-store handle with a pending-member counter.  The backing store
(`osmium::ItemStash`, not part of the sources) is modelled from the spec.
Relation payloads are opaque; we represent them by `Nat`.

Machine integers (`std::size_t`) are modelled by `Nat`.  The unguarded
`++members` wraps modulo `2^64` in the source and is modelled with an
explicit `% 2^64`; the `--members` wrap point is guarded by an `assert`,
which we model as an explicit `Option` failure.  Likewise the
`assert(pos < size)` guarding handle construction, and the assertions inside
the item stash, are modelled as `Option` failures.
-/

namespace OsmiumRelations

/-- Read a list at an index, with an explicit default out of range
(shallow model of `std::vector::operator[]` reads at checked positions). -/
def getIdx (d : α) : List α → Nat → α
  | [], _ => d
  | a :: _, 0 => a
  | _ :: l, n + 1 => getIdx d l n

/-- Write a list at an index; no-op out of range (writes in the source are
only reachable at asserted in-range positions). -/
def setIdx : List α → Nat → α → List α
  | [], _, _ => []
  | _ :: l, 0, b => b :: l
  | a :: l, n + 1, b => a :: setIdx l n b

/-- Modelled from the spec: the Backing Store (`osmium::ItemStash`, whose
source is not in the repository): an append-only allocator of opaque payload
slots that issues a stable handle per payload, supports fetch-by-handle,
release-by-handle, and a validity check; a default-constructed handle is
invalid.  A handle is `Option Nat` (`none` = invalid); the stash is the list
of its slots, `none` marking a released slot. -/
structure ItemStash where
  items : List (Option Nat)
deriving DecidableEq, Repr

/-- Modelled from the spec: `ItemStash::add_item` copies the payload and
returns a fresh valid handle to it. -/
def ItemStash.add_item (s : ItemStash) (r : Nat) : Option Nat × ItemStash :=
  (some s.items.length, { items := s.items ++ [some r] })

/-- Modelled from the spec: `ItemStash::get_item` resolves a handle to the
stored payload; the caller guarantees validity, so an invalid or released
handle is a failure (`none`). -/
def ItemStash.get_item (s : ItemStash) (h : Option Nat) : Option Nat :=
  match h with
  | none => none
  | some i => getIdx none s.items i

/-- Modelled from the spec: `ItemStash::remove_item` releases the slot a
valid handle points to; on an invalid handle it fails loudly (the stash
asserts validity), modelled as `none`. -/
def ItemStash.remove_item (s : ItemStash) (h : Option Nat) : Option ItemStash :=
  match h with
  | none => none
  | some i => some { items := setIdx s.items i none }

/-- `RelationsDatabase::element`: a backing-store handle for the relation
payload plus the number of members still needed to complete the relation. -/
structure element where
  handle : Option Nat
  members : Nat
deriving DecidableEq, Repr

/-- `element{osmium::ItemStash::handle_type{}, 0}`: the reset value a removed
slot is overwritten with. -/
def nullElement : element := { handle := none, members := 0 }

/-- `osmium::relations::RelationsDatabase`: the stash reference plus the slot
vector `m_elements`. -/
structure RelationsDatabase where
  stash : ItemStash
  elements : List element
deriving DecidableEq, Repr

/-- A freshly constructed database over an empty stash. -/
def emptyDB : RelationsDatabase := { stash := { items := [] }, elements := [] }

/-- `RelationsDatabase::size()`: number of slots, removed ones included. -/
def RelationsDatabase.size (db : RelationsDatabase) : Nat :=
  db.elements.length

/-- `RelationsDatabase::members(pos)` (read side): the pending-member counter
of the slot at `pos`. -/
def membersAt (db : RelationsDatabase) (pos : Nat) : Nat :=
  (getIdx nullElement db.elements pos).members

/-- `RelationsDatabase::add(relation)`: copy the relation into the stash,
push a slot `{handle, 0}`, and return the new database together with the
position of the new slot (`m_elements.size() - 1` after the push, i.e. the
old size), which is what the returned `RelationHandle` carries. -/
def add (db : RelationsDatabase) (r : Nat) : RelationsDatabase × Nat :=
  let hs := db.stash.add_item r
  ({ stash := hs.2, elements := db.elements ++ [{ handle := hs.1, members := 0 }] },
   db.elements.length)

/-- `RelationHandle::set_members(value)` (write side of `members(pos)`):
overwrite the pending-member counter of slot `pos`. -/
def set_members (db : RelationsDatabase) (pos value : Nat) : RelationsDatabase :=
  { db with
    elements := setIdx db.elements pos
      { getIdx nullElement db.elements pos with members := value } }

/-- The modulus of `std::size_t` (64-bit): one past `SIZE_MAX`. -/
def sizeTMod : Nat := 2 ^ 64

/-- `RelationHandle::increment_members()`: `++members(pos)` on a
`std::size_t`, which wraps modulo `2^64` at `SIZE_MAX` — no assertion guards
the increment. -/
def increment_members (db : RelationsDatabase) (pos : Nat) : RelationsDatabase :=
  set_members db pos ((membersAt db pos + 1) % sizeTMod)

/-- `RelationHandle::decrement_members()`: `assert(members(pos) > 0);
--members(pos)`.  The assertion is the explicit failure (`none`); the counter
never wraps. -/
def decrement_members (db : RelationsDatabase) (pos : Nat) : Option RelationsDatabase :=
  if 0 < membersAt db pos then some (set_members db pos (membersAt db pos - 1)) else none

/-- `RelationHandle::has_all_members()`: `members(pos) == 0` (the spec's
`is_complete()`). -/
def has_all_members (db : RelationsDatabase) (pos : Nat) : Bool :=
  membersAt db pos == 0

/-- `decrement_members` iterated `n` times, stopping at the first failure. -/
def decrementN (db : RelationsDatabase) (pos : Nat) : Nat → Option RelationsDatabase
  | 0 => some db
  | n + 1 => (decrement_members db pos).bind (fun db2 => decrementN db2 pos n)

/-- `RelationsDatabase::get_relation(pos)`: resolve the slot's handle through
the stash (`m_stash.get<osmium::Relation>(m_elements[pos].handle)`); a failure
of the asserted preconditions is `none`. -/
def get_relation (db : RelationsDatabase) (pos : Nat) : Option Nat :=
  db.stash.get_item (getIdx nullElement db.elements pos).handle

/-- `RelationsDatabase::remove(pos)` (reached via `RelationHandle::remove()`,
whose position was asserted `< size` at handle construction): release the
slot's stash handle and reset the slot to `{invalid_handle, 0}`. -/
def RelationsDatabase.remove (db : RelationsDatabase) (pos : Nat) : Option RelationsDatabase :=
  if pos < db.elements.length then
    match db.stash.remove_item (getIdx nullElement db.elements pos).handle with
    | none => none
    | some stash2 => some { stash := stash2, elements := setIdx db.elements pos nullElement }
  else none

/-- Count of slots with a valid handle (the `std::count_if` body of
`count_relations`). -/
def countValid : List element → Nat
  | [] => 0
  | e :: es => (if e.handle.isSome then 1 else 0) + countValid es

/-- `RelationsDatabase::count_relations()`: number of non-removed slots. -/
def count_relations (db : RelationsDatabase) : Nat :=
  countValid db.elements

/-- `RelationsDatabase::for_each_relation(func)`: the sequence of positions
at which the callback is invoked — the loop walks `pos = 0 .. size()-1` in
order and calls `func` exactly when `m_elements[pos].handle.valid()`. -/
def for_each_relation (db : RelationsDatabase) : List Nat :=
  (List.range db.size).filter (fun pos => (getIdx nullElement db.elements pos).handle.isSome)

/-- `handle_ok len h`: the handle, when valid, points below `len` — the
well-formedness every handle stored by the database enjoys. -/
def handle_ok (len : Nat) : Option Nat → Bool
  | none => true
  | some i => i < len

/-- Fold a list of relations into the database by repeated `add`. -/
def addAll (db : RelationsDatabase) (rs : List Nat) : RelationsDatabase :=
  rs.foldl (fun d r => (add d r).1) db

/-- The operations of the public interface, for reasoning about operation
sequences.  Positions enter counter operations only through handles, whose
construction asserts `pos < size`. -/
inductive Op where
  | insert (r : Nat)
  | set_pending (pos n : Nat)
  | increment_pending (pos : Nat)
  | decrement_pending (pos : Nat)
  | remove (pos : Nat)
deriving DecidableEq, Repr

/-- One step of the interface; contract violations are `none`. -/
def applyOp (db : RelationsDatabase) : Op → Option RelationsDatabase
  | .insert r => some (add db r).1
  | .set_pending pos n => if pos < db.size then some (set_members db pos n) else none
  | .increment_pending pos => if pos < db.size then some (increment_members db pos) else none
  | .decrement_pending pos => if pos < db.size then decrement_members db pos else none
  | .remove pos => db.remove pos

/-- Run a sequence of interface operations. -/
def run (db : RelationsDatabase) : List Op → Option RelationsDatabase
  | [] => some db
  | op :: ops => (applyOp db op).bind (fun db2 => run db2 ops)

/-- Whether an operation is an `insert`. -/
def isInsertOp : Op → Bool
  | .insert _ => true
  | _ => false

/-- Whether an operation is a `remove`. -/
def isRemoveOp : Op → Bool
  | .remove _ => true
  | _ => false

/-- Number of `insert` operations in a sequence. -/
def countInserts (ops : List Op) : Nat :=
  (ops.filter isInsertOp).length

/-- Number of `remove` operations in a sequence. -/
def countRemoves (ops : List Op) : Nat :=
  (ops.filter isRemoveOp).length

/-- What a counter operation at `pos` may not touch: the size, the stash
(hence every payload), the slot's own handle, and every other slot. -/
def counter_frame (db db2 : RelationsDatabase) (pos : Nat) : Prop :=
  db2.size = db.size ∧
  db2.stash = db.stash ∧
  (getIdx nullElement db2.elements pos).handle = (getIdx nullElement db.elements pos).handle ∧
  ∀ q, q ≠ pos → getIdx nullElement db2.elements q = getIdx nullElement db.elements q

/-- A one-slot database: one relation inserted, counter 0. -/
def dbA : RelationsDatabase := (add emptyDB 7).1

/-- A two-slot database: two relations inserted, slot 0 waiting on 2
members. -/
def dbB : RelationsDatabase := set_members (add dbA 8).1 0 2

/-- A one-slot database whose counter sits at `SIZE_MAX`, reachable by a
single `set_members` call. -/
def dbMax : RelationsDatabase := set_members dbA 0 (sizeTMod - 1)

/-- Concrete one-insert run used to exercise the sequence theorems. -/
def opsA : List Op := [Op.insert 5]

/-- Concrete continuation: a second insert followed by a removal. -/
def opsB : List Op := [Op.insert 6, Op.remove 0]

/-- The database state reached by running `opsA` from the empty database. -/
def dbMid : RelationsDatabase :=
  { stash := { items := [some 5] }, elements := [{ handle := some 0, members := 0 }] }

/-- The database state reached by running `opsA ++ opsB` from the empty
database. -/
def dbEnd : RelationsDatabase :=
  { stash := { items := [none, some 6] },
    elements := [{ handle := none, members := 0 }, { handle := some 1, members := 0 }] }

/-! ### Generic index lemmas -/

theorem length_setIdx (l : List α) (n : Nat) (b : α) : (setIdx l n b).length = l.length := by
  induction l generalizing n with
  | nil => rfl
  | cons a l ih =>
    cases n with
    | zero => rfl
    | succ n => simp [setIdx, ih]

theorem getIdx_setIdx_self (d : α) (l : List α) (n : Nat) (b : α) (h : n < l.length) :
    getIdx d (setIdx l n b) n = b := by
  induction l generalizing n with
  | nil => simp at h
  | cons a l ih =>
    cases n with
    | zero => rfl
    | succ n => exact ih n (Nat.lt_of_succ_lt_succ h)

theorem getIdx_setIdx_ne (d : α) (l : List α) (n m : Nat) (b : α) (h : m ≠ n) :
    getIdx d (setIdx l n b) m = getIdx d l m := by
  induction l generalizing n m with
  | nil => rfl
  | cons a l ih =>
    cases n with
    | zero =>
      cases m with
      | zero => exact absurd rfl h
      | succ m => rfl
    | succ n =>
      cases m with
      | zero => rfl
      | succ m => exact ih n m fun e => h (congrArg Nat.succ e)

theorem setIdx_setIdx (l : List α) (n : Nat) (a b : α) :
    setIdx (setIdx l n a) n b = setIdx l n b := by
  induction l generalizing n with
  | nil => rfl
  | cons c l ih =>
    cases n with
    | zero => rfl
    | succ n => simp [setIdx, ih]

theorem setIdx_getIdx_self (d : α) (l : List α) (n : Nat) (h : n < l.length) :
    setIdx l n (getIdx d l n) = l := by
  induction l generalizing n with
  | nil => rfl
  | cons a l ih =>
    cases n with
    | zero => rfl
    | succ n => simp [setIdx, getIdx, ih n (Nat.lt_of_succ_lt_succ h)]

theorem getIdx_append_lt (d : α) (l l2 : List α) (n : Nat) (h : n < l.length) :
    getIdx d (l ++ l2) n = getIdx d l n := by
  induction l generalizing n with
  | nil => simp at h
  | cons a l ih =>
    cases n with
    | zero => rfl
    | succ n => exact ih n (Nat.lt_of_succ_lt_succ h)

theorem getIdx_append_len (d : α) (l : List α) (a : α) (l2 : List α) :
    getIdx d (l ++ a :: l2) l.length = a := by
  induction l with
  | nil => rfl
  | cons b l ih => exact ih

theorem getIdx_oob (d : α) (l : List α) (n : Nat) (h : l.length ≤ n) : getIdx d l n = d := by
  induction l generalizing n with
  | nil => rfl
  | cons a l ih =>
    cases n with
    | zero => simp at h
    | succ n => exact ih n (Nat.le_of_succ_le_succ h)

theorem getIdx_setIdx_oob (d : α) (l : List α) (n : Nat) (b : α) (h : l.length ≤ n) :
    getIdx d (setIdx l n b) n = d := by
  rw [getIdx_oob]
  rw [length_setIdx]
  exact h

/-! ### Counter-operation lemmas -/

theorem size_set_members (db : RelationsDatabase) (pos v : Nat) :
    (set_members db pos v).size = db.size := by
  simp [set_members, RelationsDatabase.size, length_setIdx]

theorem stash_set_members (db : RelationsDatabase) (pos v : Nat) :
    (set_members db pos v).stash = db.stash := rfl

theorem membersAt_set_members_self (db : RelationsDatabase) (pos v : Nat)
    (h : pos < db.size) : membersAt (set_members db pos v) pos = v := by
  simp [membersAt, set_members, getIdx_setIdx_self _ _ _ _ h]

theorem handle_set_members_self (db : RelationsDatabase) (pos v : Nat)
    (h : pos < db.size) :
    (getIdx nullElement (set_members db pos v).elements pos).handle =
      (getIdx nullElement db.elements pos).handle := by
  simp [set_members, getIdx_setIdx_self _ _ _ _ h]

theorem getIdx_set_members_ne (db : RelationsDatabase) (pos v q : Nat) (h : q ≠ pos) :
    getIdx nullElement (set_members db pos v).elements q =
      getIdx nullElement db.elements q :=
  getIdx_setIdx_ne _ _ _ _ _ h

theorem set_members_membersAt (db : RelationsDatabase) (pos : Nat) (h : pos < db.size) :
    set_members db pos (membersAt db pos) = db := by
  cases db with
  | mk stash elements =>
    simp only [set_members, membersAt]
    congr 1
    have : { getIdx nullElement elements pos with
              members := (getIdx nullElement elements pos).members } =
            getIdx nullElement elements pos := rfl
    rw [this]
    exact setIdx_getIdx_self _ _ _ h

theorem set_members_set_members (db : RelationsDatabase) (pos a b : Nat)
    (h : pos < db.size) :
    set_members (set_members db pos a) pos b = set_members db pos b := by
  cases db with
  | mk stash elements =>
    simp only [set_members]
    congr 1
    rw [getIdx_setIdx_self _ _ _ _ h, setIdx_setIdx]

theorem decrementN_of_le (pos k : Nat) :
    ∀ (db : RelationsDatabase) (m : Nat), pos < db.size → membersAt db pos = m → k ≤ m →
    decrementN db pos k = some (set_members db pos (m - k)) := by
  induction k with
  | zero =>
    intro db m hpos hm _
    simp [decrementN, ← hm, set_members_membersAt db pos hpos]
  | succ k ih =>
    intro db m hpos hm hk
    have hm0 : 0 < membersAt db pos := by omega
    have hlt : pos < (set_members db pos (membersAt db pos - 1)).size := by
      rw [size_set_members]; exact hpos
    have hm1 : membersAt (set_members db pos (membersAt db pos - 1)) pos = m - 1 := by
      rw [membersAt_set_members_self _ _ _ hpos, hm]
    simp only [decrementN, decrement_members, if_pos hm0, Option.some_bind]
    rw [ih _ (m - 1) hlt hm1 (by omega),
        set_members_set_members db pos _ _ hpos]
    congr 2
    omega

theorem decrementN_overflow (pos : Nat) :
    ∀ (m : Nat) (db : RelationsDatabase), pos < db.size → membersAt db pos = m →
    decrementN db pos (m + 1) = none := by
  intro m
  induction m with
  | zero =>
    intro db _ hm
    simp [decrementN, decrement_members, hm]
  | succ m ih =>
    intro db hpos hm
    have hm0 : 0 < membersAt db pos := by omega
    simp only [decrementN, decrement_members, if_pos hm0, Option.some_bind]
    exact ih _ (by rw [size_set_members]; exact hpos)
      (by rw [membersAt_set_members_self _ _ _ hpos]; omega)

/-! ### Counting lemmas -/

theorem countValid_append (l l2 : List element) :
    countValid (l ++ l2) = countValid l + countValid l2 := by
  induction l with
  | nil => simp [countValid]
  | cons e l ih => simp [countValid, ih]; omega

theorem countValid_setIdx (l : List element) (n : Nat) (e : element) (h : n < l.length) :
    countValid (setIdx l n e) + (if (getIdx nullElement l n).handle.isSome then 1 else 0) =
      countValid l + (if e.handle.isSome then 1 else 0) := by
  induction l generalizing n with
  | nil => simp at h
  | cons a l ih =>
    cases n with
    | zero => simp [setIdx, getIdx, countValid]; omega
    | succ n =>
      have := ih n (Nat.lt_of_succ_lt_succ h)
      simp only [setIdx, getIdx, countValid]
      omega

theorem count_relations_set_members (db : RelationsDatabase) (pos v : Nat)
    (h : pos < db.size) :
    count_relations (set_members db pos v) = count_relations db := by
  have := countValid_setIdx db.elements pos
    { getIdx nullElement db.elements pos with members := v } h
  simp only [count_relations, set_members] at *
  omega

theorem remove_eq_some (db db2 : RelationsDatabase) (pos : Nat)
    (h : db.remove pos = some db2) :
    pos < db.size ∧ (getIdx nullElement db.elements pos).handle.isSome = true ∧
      db2.elements = setIdx db.elements pos nullElement := by
  by_cases hlt : pos < db.elements.length
  · refine ⟨hlt, ?_⟩
    simp only [RelationsDatabase.remove, if_pos hlt] at h
    cases hh : (getIdx nullElement db.elements pos).handle with
    | none => rw [hh] at h; simp [ItemStash.remove_item] at h
    | some i =>
      rw [hh] at h
      simp only [ItemStash.remove_item] at h
      cases h
      exact ⟨rfl, rfl⟩
  · simp only [RelationsDatabase.remove, if_neg hlt] at h
    cases h

theorem applyOp_size_count (db db2 : RelationsDatabase) (op : Op)
    (h : applyOp db op = some db2) :
    db2.size = db.size + countInserts [op] ∧
    count_relations db2 + countRemoves [op] = count_relations db + countInserts [op] := by
  cases op with
  | insert r =>
    simp only [applyOp, Option.some.injEq] at h
    subst h
    constructor
    · simp [add, RelationsDatabase.size, countInserts, isInsertOp]
    · simp [add, ItemStash.add_item, count_relations, countValid_append, countValid,
        countInserts, countRemoves, isInsertOp, isRemoveOp]
  | set_pending pos n =>
    by_cases hlt : pos < db.size
    · simp only [applyOp, if_pos hlt, Option.some.injEq] at h
      subst h
      simp [size_set_members, count_relations_set_members db pos n hlt,
        countInserts, countRemoves, isInsertOp, isRemoveOp]
    · simp [applyOp, if_neg hlt] at h
  | increment_pending pos =>
    by_cases hlt : pos < db.size
    · simp only [applyOp, if_pos hlt, Option.some.injEq] at h
      subst h
      simp [increment_members, size_set_members, count_relations_set_members db pos _ hlt,
        countInserts, countRemoves, isInsertOp, isRemoveOp]
    · simp [applyOp, if_neg hlt] at h
  | decrement_pending pos =>
    by_cases hlt : pos < db.size
    · simp only [applyOp, if_pos hlt, decrement_members] at h
      by_cases hm : 0 < membersAt db pos
      · simp only [if_pos hm, Option.some.injEq] at h
        subst h
        simp [size_set_members, count_relations_set_members db pos _ hlt,
          countInserts, countRemoves, isInsertOp, isRemoveOp]
      · simp [if_neg hm] at h
    · simp [applyOp, if_neg hlt] at h
  | remove pos =>
    simp only [applyOp] at h
    obtain ⟨hlt, hsome, helems⟩ := remove_eq_some db db2 pos h
    have hcnt : countValid (setIdx db.elements pos nullElement) + 1 = countValid db.elements := by
      have hc := countValid_setIdx db.elements pos nullElement hlt
      rw [hsome] at hc
      simpa [nullElement] using hc
    constructor
    · simp [RelationsDatabase.size, helems, length_setIdx, countInserts, isInsertOp]
    · simp only [count_relations, helems]
      simp [countRemoves, countInserts, isInsertOp, isRemoveOp]
      omega

theorem run_invariant (ops : List Op) :
    ∀ db db2 : RelationsDatabase, run db ops = some db2 →
      db2.size = db.size + countInserts ops ∧
      count_relations db2 + countRemoves ops = count_relations db + countInserts ops := by
  induction ops with
  | nil =>
    intro db db2 h
    simp only [run, Option.some.injEq] at h
    subst h
    simp [countInserts, countRemoves]
  | cons op ops ih =>
    intro db db2 h
    simp only [run] at h
    cases hop : applyOp db op with
    | none => rw [hop] at h; simp at h
    | some dbm =>
      rw [hop] at h
      simp only [Option.some_bind] at h
      have h1 := applyOp_size_count db dbm op hop
      have h2 := ih dbm db2 h
      cases op <;>
        simp [countInserts, countRemoves, isInsertOp, isRemoveOp] at h1 h2 ⊢ <;>
        omega

theorem run_append (ops1 ops2 : List Op) :
    ∀ db : RelationsDatabase, run db (ops1 ++ ops2) =
      (run db ops1).bind (fun dbm => run dbm ops2) := by
  induction ops1 with
  | nil => intro db; simp [run]
  | cons op ops ih =>
    intro db
    simp only [List.cons_append, run]
    cases applyOp db op with
    | none => simp
    | some dbm => simp [ih dbm]

theorem countInserts_append (ops1 ops2 : List Op) :
    countInserts (ops1 ++ ops2) = countInserts ops1 + countInserts ops2 := by
  simp [countInserts, List.filter_append]

theorem add_preserves_slot (db : RelationsDatabase) (r pos : Nat) (hpos : pos < db.size)
    (hh : handle_ok db.stash.items.length (getIdx nullElement db.elements pos).handle = true) :
    getIdx nullElement (add db r).1.elements pos = getIdx nullElement db.elements pos ∧
    get_relation (add db r).1 pos = get_relation db pos ∧
    pos < (add db r).1.size ∧
    handle_ok (add db r).1.stash.items.length
      (getIdx nullElement (add db r).1.elements pos).handle = true := by
  have he : getIdx nullElement (add db r).1.elements pos = getIdx nullElement db.elements pos := by
    simp only [add]
    exact getIdx_append_lt _ _ _ _ hpos
  have hlen : (add db r).1.stash.items.length = db.stash.items.length + 1 := by
    simp [add, ItemStash.add_item]
  refine ⟨he, ?_, ?_, ?_⟩
  · simp only [get_relation, he]
    cases hh2 : (getIdx nullElement db.elements pos).handle with
    | none => rfl
    | some i =>
      rw [hh2] at hh
      simp only [handle_ok, decide_eq_true_eq] at hh
      simp only [ItemStash.get_item, add, ItemStash.add_item]
      exact getIdx_append_lt _ _ _ _ hh
  · have hpos2 : pos < db.elements.length := hpos
    simp only [add, RelationsDatabase.size, List.length_append, List.length_cons,
      List.length_nil]
    omega
  · rw [he, hlen]
    cases hh2 : (getIdx nullElement db.elements pos).handle with
    | none => rfl
    | some i =>
      rw [hh2] at hh
      simp only [handle_ok, decide_eq_true_eq] at hh ⊢
      omega

/-! ### The claims -/

/-- Claim C1: for every relation `r` and every database state, `add` appends
exactly one new slot whose pending-member counter is 0 and returns a position
equal to the database's `size()` before the insertion; immediately after the
insertion, `has_all_members` at the returned position is true. -/
theorem add_fresh_slot (db : RelationsDatabase) (r : Nat) :
    (add db r).2 = db.size ∧
    (add db r).1.size = db.size + 1 ∧
    (add db r).1.elements =
      db.elements ++ [{ handle := some db.stash.items.length, members := 0 }] ∧
    has_all_members (add db r).1 (add db r).2 = true := by
  refine ⟨rfl, ?_, rfl, ?_⟩
  · simp [add, RelationsDatabase.size]
  · simp only [has_all_members, membersAt, add, ItemStash.add_item]
    rw [getIdx_append_len]
    rfl

/-- Claim C2: after `set_members db pos n`, `decrement_members` iterated
`k ≤ n` times succeeds and leaves the counter at `n - k`, the relation is
complete exactly when `k = n` (so completion happens at the decrement that
reaches zero and never before), and an `(n+1)`-th decrement fails. -/
theorem set_members_decrement_progression (db : RelationsDatabase) (pos n k : Nat)
    (hpos : pos < db.size) (hk : k ≤ n) :
    decrementN (set_members db pos n) pos k = some (set_members db pos (n - k)) ∧
    (has_all_members (set_members db pos (n - k)) pos = true ↔ k = n) ∧
    decrementN (set_members db pos n) pos (n + 1) = none := by
  have hpos2 : pos < (set_members db pos n).size := by
    rw [size_set_members]; exact hpos
  have hm : membersAt (set_members db pos n) pos = n :=
    membersAt_set_members_self _ _ _ hpos
  refine ⟨?_, ?_, ?_⟩
  · rw [decrementN_of_le pos k _ n hpos2 hm hk, set_members_set_members _ _ _ _ hpos]
  · rw [has_all_members, membersAt_set_members_self _ _ _ hpos]
    simp only [beq_iff_eq]
    omega
  · exact decrementN_overflow pos n _ hpos2 hm

/-- Claim C3: decrementing a slot whose pending-member counter is already 0
fails with an explicit error (the modelled assertion) instead of wrapping the
counter around. -/
theorem decrement_members_at_zero_fails (db : RelationsDatabase) (pos : Nat)
    (h0 : membersAt db pos = 0) :
    decrement_members db pos = none := by
  simp [decrement_members, h0]

/-- Claim C4: for every successful operation sequence from the empty
database, `size()` equals the number of `insert` operations, independent of
removals, and `size()` is monotonically non-decreasing along the sequence
(each prefix's size is at most the full sequence's size). -/
theorem run_size_eq_inserts (ops1 ops2 : List Op) (dbm db : RelationsDatabase)
    (h1 : run emptyDB ops1 = some dbm) (h : run emptyDB (ops1 ++ ops2) = some db) :
    db.size = countInserts (ops1 ++ ops2) ∧ dbm.size ≤ db.size := by
  have hpre := run_invariant ops1 emptyDB dbm h1
  rw [run_append ops1 ops2 emptyDB, h1, Option.some_bind] at h
  have h2 := run_invariant ops2 dbm db h
  have hemp : emptyDB.size = 0 := rfl
  constructor
  · rw [countInserts_append]
    omega
  · omega

/-- Claim C5: after every successful operation sequence from the empty
database, `count_relations()` equals `size()` minus the number of completed
`remove` operations. -/
theorem count_relations_eq_size_sub_removes (ops : List Op) (db : RelationsDatabase)
    (h : run emptyDB ops = some db) :
    count_relations db = db.size - countRemoves ops ∧ countRemoves ops ≤ db.size := by
  have hi := run_invariant ops emptyDB db h
  have h1 : emptyDB.size = 0 := rfl
  have h2 : count_relations emptyDB = 0 := rfl
  omega

/-- Claim C6: for every position `pos < size()` holding a live slot,
`remove pos` succeeds, releases the slot's backing-store handle, and resets
the slot to `{invalid_handle, 0}`; `pos` remains a valid index afterwards. -/
theorem remove_resets_slot (db : RelationsDatabase) (pos : Nat)
    (hpos : pos < db.size)
    (hv : (getIdx nullElement db.elements pos).handle.isSome = true) :
    ∃ db2, db.remove pos = some db2 ∧
      getIdx nullElement db2.elements pos = nullElement ∧
      db2.size = db.size ∧ pos < db2.size ∧
      (∀ i, (getIdx nullElement db.elements pos).handle = some i →
        getIdx none db2.stash.items i = none) := by
  cases hh : (getIdx nullElement db.elements pos).handle with
  | none => rw [hh] at hv; simp at hv
  | some i =>
    refine ⟨{ stash := { items := setIdx db.stash.items i none },
              elements := setIdx db.elements pos nullElement }, ?_, ?_, ?_, ?_, ?_⟩
    · simp only [RelationsDatabase.remove, hh, ItemStash.remove_item]
      rw [if_pos (show pos < db.elements.length from hpos)]
    · exact getIdx_setIdx_self _ _ _ _ hpos
    · simp [RelationsDatabase.size, length_setIdx]
    · show pos < (setIdx db.elements pos nullElement).length
      rw [length_setIdx]
      exact hpos
    · intro j hj
      have hij : i = j := Option.some.inj hj
      subst hij
      show getIdx none (setIdx db.stash.items i none) i = none
      by_cases hi : i < db.stash.items.length
      · exact getIdx_setIdx_self _ _ _ _ hi
      · exact getIdx_setIdx_oob _ _ _ _ (Nat.le_of_not_lt hi)

/-- Claim C7: the iteration order of `for_each_relation` is strictly
ascending (so no position is visited twice), and a position is visited
exactly when it is in range and its payload handle is valid; removed slots
are skipped. -/
theorem for_each_relation_live_ascending (db : RelationsDatabase) (p : Nat) :
    (for_each_relation db).Pairwise (· < ·) ∧
    (p ∈ for_each_relation db ↔
      p < db.size ∧ (getIdx nullElement db.elements p).handle.isSome = true) := by
  constructor
  · exact List.Pairwise.sublist (List.filter_sublist _) (List.pairwise_lt_range _)
  · simp [for_each_relation, List.mem_filter, List.mem_range]

/-- Claim C8: inserting any number of further relations leaves every
previously issued position's slot (handle and counter) unchanged, and the
payload it resolves to through the stash is unchanged as well. -/
theorem add_preserves_existing_slots (db : RelationsDatabase) (rs : List Nat) (pos : Nat)
    (hpos : pos < db.size)
    (hh : handle_ok db.stash.items.length (getIdx nullElement db.elements pos).handle = true) :
    getIdx nullElement (addAll db rs).elements pos = getIdx nullElement db.elements pos ∧
    get_relation (addAll db rs) pos = get_relation db pos := by
  induction rs generalizing db with
  | nil => exact ⟨rfl, rfl⟩
  | cons r rs ih =>
    obtain ⟨he, hg, hlt, hok⟩ := add_preserves_slot db r pos hpos hh
    have hs := ih (add db r).1 hlt hok
    simp only [addAll, List.foldl_cons] at hs ⊢
    exact ⟨hs.1.trans he, hs.2.trans hg⟩

/-- Counterexample to claim C9 as stated: at a slot whose counter is
`SIZE_MAX` (reachable by one `set_members` call), the increment wraps the
counter to 0, so the following decrement trips the assertion and the pair
does not restore the slot. -/
theorem increment_then_decrement_wraps_at_max :
    membersAt dbMax 0 = sizeTMod - 1 ∧
    membersAt (increment_members dbMax 0) 0 = 0 ∧
    decrement_members (increment_members dbMax 0) 0 = none ∧
    decrement_members (increment_members dbMax 0) 0 ≠ some dbMax := by
  have h1 : membersAt dbMax 0 = sizeTMod - 1 := by decide
  have h2 : (0 : Nat) < dbMax.size := by decide
  have hc : sizeTMod - 1 + 1 = sizeTMod := by decide
  have hz : membersAt (increment_members dbMax 0) 0 = 0 := by
    rw [increment_members, h1, membersAt_set_members_self _ _ _ h2, hc, Nat.mod_self]
  have hn : decrement_members (increment_members dbMax 0) 0 = none := by
    simp [decrement_members, hz]
  refine ⟨h1, hz, hn, ?_⟩
  rw [hn]
  intro hcontra
  cases hcontra

/-- Claim C9, amended: `increment_members` followed by `decrement_members` at
the same position restores the database (counter and completion state)
exactly, provided the counter is below `SIZE_MAX` so the `std::size_t`
increment does not wrap. -/
theorem increment_then_decrement_id (db : RelationsDatabase) (pos : Nat)
    (hpos : pos < db.size) (hlt : membersAt db pos < sizeTMod - 1) :
    decrement_members (increment_members db pos) pos = some db := by
  have hmod : (membersAt db pos + 1) % sizeTMod = membersAt db pos + 1 := by
    apply Nat.mod_eq_of_lt
    have : 0 < sizeTMod := by decide
    omega
  have h1 : membersAt (set_members db pos ((membersAt db pos + 1) % sizeTMod)) pos =
      membersAt db pos + 1 := by
    rw [membersAt_set_members_self _ _ _ hpos, hmod]
  simp only [decrement_members, increment_members, h1]
  rw [if_pos (Nat.succ_pos _), set_members_set_members _ _ _ _ hpos]
  simp only [Nat.add_sub_cancel]
  rw [set_members_membersAt _ _ hpos]

/-- Claim C10: each counter operation at `pos` changes at most the
pending-member counter of slot `pos`: the size, the stash (hence every
payload), the slot's own handle, and every other slot are unchanged. -/
theorem counter_ops_frame (db : RelationsDatabase) (pos v : Nat) (hpos : pos < db.size) :
    counter_frame db (set_members db pos v) pos ∧
    counter_frame db (increment_members db pos) pos ∧
    (∀ db2, decrement_members db pos = some db2 → counter_frame db db2 pos) := by
  have hset : ∀ w, counter_frame db (set_members db pos w) pos := fun w =>
    ⟨size_set_members db pos w, rfl, handle_set_members_self db pos w hpos,
      fun q hq => getIdx_set_members_ne db pos w q hq⟩
  refine ⟨hset v, hset _, ?_⟩
  intro db2 h
  by_cases hm : 0 < membersAt db pos
  · simp only [decrement_members, if_pos hm, Option.some.injEq] at h
    rw [← h]
    exact hset _
  · simp [decrement_members, if_neg hm] at h

/-! ### Witnesses: the claim theorems applied at concrete database states -/

/-- Witness for C2 at `dbB`-like data: slot 0 of `dbA` set to 2, one
decrement taken. -/
theorem set_members_decrement_progression_witness :
    decrementN (set_members dbA 0 2) 0 1 = some (set_members dbA 0 (2 - 1)) ∧
    (has_all_members (set_members dbA 0 (2 - 1)) 0 = true ↔ 1 = 2) ∧
    decrementN (set_members dbA 0 2) 0 (2 + 1) = none :=
  set_members_decrement_progression dbA 0 2 1 (by decide) (by decide)

/-- Witness for C3: slot 0 of `dbA` has counter 0 and decrementing fails. -/
theorem decrement_members_at_zero_fails_witness :
    decrement_members dbA 0 = none :=
  decrement_members_at_zero_fails dbA 0 (by decide)

/-- Witness for C4 on a concrete run: two inserts and a removal. -/
theorem run_size_eq_inserts_witness :
    dbEnd.size = countInserts (opsA ++ opsB) ∧ dbMid.size ≤ dbEnd.size :=
  run_size_eq_inserts opsA opsB dbMid dbEnd (by decide) (by decide)

/-- Witness for C5 on the same concrete run. -/
theorem count_relations_eq_size_sub_removes_witness :
    count_relations dbEnd = dbEnd.size - countRemoves (opsA ++ opsB) ∧
    countRemoves (opsA ++ opsB) ≤ dbEnd.size :=
  count_relations_eq_size_sub_removes (opsA ++ opsB) dbEnd (by decide)

/-- Witness for C6: removing the live slot 0 of `dbB`. -/
theorem remove_resets_slot_witness :
    ∃ db2, dbB.remove 0 = some db2 ∧
      getIdx nullElement db2.elements 0 = nullElement ∧
      db2.size = dbB.size ∧ 0 < db2.size ∧
      (∀ i, (getIdx nullElement dbB.elements 0).handle = some i →
        getIdx none db2.stash.items i = none) :=
  remove_resets_slot dbB 0 (by decide) (by decide)

/-- Witness for C8: growing `dbB` by three more relations leaves slot 0
untouched. -/
theorem add_preserves_existing_slots_witness :
    getIdx nullElement (addAll dbB [1, 2, 3]).elements 0 =
      getIdx nullElement dbB.elements 0 ∧
    get_relation (addAll dbB [1, 2, 3]) 0 = get_relation dbB 0 :=
  add_preserves_existing_slots dbB [1, 2, 3] 0 (by decide) (by decide)

/-- Witness for C9 (amended) at slot 0 of `dbA`, whose counter 0 is below
`SIZE_MAX`. -/
theorem increment_then_decrement_id_witness :
    decrement_members (increment_members dbA 0) 0 = some dbA :=
  increment_then_decrement_id dbA 0 (by decide) (by decide)

/-- Witness for C10 at slot 0 of `dbB`. -/
theorem counter_ops_frame_witness :
    counter_frame dbB (set_members dbB 0 5) 0 ∧
    counter_frame dbB (increment_members dbB 0) 0 ∧
    (∀ db2, decrement_members dbB 0 = some db2 → counter_frame dbB db2 0) :=
  counter_ops_frame dbB 0 5 (by decide)

end OsmiumRelations
